import Mathlib

/-!
Shallow embedding of the douban-wom scraper (scripts/html_parsers.py and
scripts/douban_wom.py) and proofs about it.

Text is modelled as `List Char` (Python strings, compared code-point-wise).
An HTML document (BeautifulSoup tree) is modelled as a tree of element and
text nodes; element attributes are restricted to the three attributes the
parsers consult (`class`, `id`, `href`).  Nodes inside a document are
addressed by their child-index path from the root, mirroring object
identity in the Python tree.  Network effects (requests.get, time.sleep)
are modelled by oracle functions supplying the outcome of each attempt.
-/

namespace DW

/-! ### Python string primitives (str.strip, str.split, in, replace, isdigit) -/

/-- Characters Python's `str.strip()` removes: ASCII whitespace and the
non-breaking space (the only non-ASCII whitespace the source manipulates). -/
def pySpace (c : Char) : Bool :=
  c = ' ' || c = '\t' || c = '\n' || c = '\r' || c = '\x0b' || c = '\x0c' || c = '\xa0'

/-- Python `s.strip()`. -/
def pyStrip (l : List Char) : List Char :=
  ((l.dropWhile pySpace).reverse.dropWhile pySpace).reverse

/-- Python `s.strip(chars)` for an explicit character set. -/
def pyStripSet (set : List Char) (l : List Char) : List Char :=
  ((l.dropWhile (set.contains ·)).reverse.dropWhile (set.contains ·)).reverse

/-- Python `needle in hay` substring test. -/
def containsSub (needle : List Char) : List Char → Bool
  | [] => needle.isEmpty
  | c :: cs => needle.isPrefixOf (c :: cs) || containsSub needle cs

/-- Worker for `pyReplace`; the fuel argument only makes the recursion
structural, `pyReplace` supplies enough for the whole input. -/
def replaceSub (needle : List Char) : Nat → List Char → List Char
  | _, [] => []
  | 0, l => l
  | fuel + 1, c :: cs =>
    if !needle.isEmpty && needle.isPrefixOf (c :: cs) then
      replaceSub needle fuel (cs.drop (needle.length - 1))
    else
      c :: replaceSub needle fuel cs

/-- Python `hay.replace(needle, "")`: remove every (left-to-right,
non-overlapping) occurrence of `needle`. -/
def pyReplace (hay needle : List Char) : List Char :=
  replaceSub needle hay.length hay

/-- Python `s.isdigit()` (restricted to the ASCII digits that occur in the
pages being parsed): non-empty and all digits. -/
def pyIsDigit (l : List Char) : Bool :=
  !l.isEmpty && l.all (fun c => 48 ≤ c.toNat && c.toNat ≤ 57)

/-- Numeric value of an all-digit string, as Python `int(...)` computes it. -/
def digitsToNat (l : List Char) : Nat :=
  l.foldl (fun acc c => acc * 10 + (c.toNat - 48)) 0

/-- Python string `<=`: lexicographic comparison by code point. -/
def lexLe : List Char → List Char → Bool
  | [], _ => true
  | _ :: _, [] => false
  | a :: as, b :: bs =>
    if a.toNat < b.toNat then true
    else if b.toNat < a.toNat then false
    else lexLe as bs

/-- Python `s.split(" ")` with an explicit separator: empty fields are kept,
`"".split(" ") = [""]`. -/
def splitSpaceAux : List Char → List Char → List String
  | acc, [] => [String.mk acc.reverse]
  | acc, c :: cs =>
    if c = ' ' then String.mk acc.reverse :: splitSpaceAux [] cs
    else splitSpaceAux (c :: acc) cs

/-- Python `s.split(" ")`. -/
def splitSpace (l : List Char) : List String :=
  splitSpaceAux [] l

/-- The `_norm_text` helper of html_parsers.py:
`(s or "").strip().replace("\xa0", " ")`. -/
def normText (l : List Char) : List Char :=
  (pyStrip l).map (fun c => if c = '\xa0' then ' ' else c)

/-! ### The document tree (BeautifulSoup model) -/

/-- Element attributes, restricted to the attributes the parsers read.
BeautifulSoup reports `class` as a list of class names, `id` and `href` as
optional strings (`tag.get(...)` returns `None` when absent). -/
structure Attrs where
  classes : List String
  idAttr : Option String
  href : Option String

mutual
/-- A node of the parsed document: an element with tag name, attributes and
ordered children, or a navigable string. -/
inductive Node where
  | elem (tag : String) (attrs : Attrs) (children : NodeList) : Node
  | text (s : String) : Node
/-- Ordered child nodes (a separate inductive so that structural recursion
over the tree is available). -/
inductive NodeList where
  | nil : NodeList
  | cons (head : Node) (tail : NodeList) : NodeList
end

/-- Convert a child sequence to an ordinary list. -/
def NodeList.toList : NodeList → List Node
  | .nil => []
  | .cons c cs => c :: cs.toList

/-- Children of a node (text nodes have none). -/
def Node.children : Node → List Node
  | .elem _ _ cs => cs.toList
  | .text _ => []

/-- Python `getattr(node, "name", None) == t` restricted to element nodes:
text nodes have no tag name. -/
def tagIs (t : String) : Node → Bool
  | .elem tg _ _ => tg == t
  | .text _ => false

/-- BeautifulSoup `class_=c` matching: `c` is among the element's classes. -/
def hasClass (c : String) : Node → Bool
  | .elem _ a _ => a.classes.contains c
  | .text _ => false

/-- BeautifulSoup `id=v` matching. -/
def idIs (v : String) : Node → Bool
  | .elem _ a _ => a.idAttr == some v
  | .text _ => false

/-- The `href` attribute, `tag.get("href")`. -/
def hrefOf : Node → Option String
  | .elem _ a _ => a.href
  | .text _ => none

/-- Python truthiness of a BeautifulSoup node: tags are truthy, a navigable
string is truthy iff non-empty. -/
def nodeTruthy : Node → Bool
  | .elem _ _ _ => true
  | .text s => !s.data.isEmpty

mutual
/-- All navigable strings in the subtree, in document order (the string
sequence `get_text` joins). -/
def getTexts : Node → List (List Char)
  | .text s => [s.data]
  | .elem _ _ cs => getTextsL cs
def getTextsL : NodeList → List (List Char)
  | .nil => []
  | .cons c cs => getTexts c ++ getTextsL cs
end

/-- BeautifulSoup `node.get_text(" ")`: all subtree strings joined by a
single space. -/
def getTextSep (n : Node) : List Char :=
  List.intercalate [' '] (getTexts n)

mutual
/-- Child-index paths of all strict descendants of a node, in document
(pre-order) order — the traversal order of BeautifulSoup's `find`/`find_all`. -/
def subPos : Node → List (List Nat)
  | .text _ => []
  | .elem _ _ cs => subPosAux 0 cs
def subPosAux : Nat → NodeList → List (List Nat)
  | _, .nil => []
  | i, .cons c cs => [i] :: ((subPos c).map (i :: ·) ++ subPosAux (i + 1) cs)
end

mutual
/-- All strict descendants of a node, in document (pre-order) order. -/
def descNodes : Node → List Node
  | .text _ => []
  | .elem _ _ cs => descNodesL cs
def descNodesL : NodeList → List Node
  | .nil => []
  | .cons c cs => c :: (descNodes c ++ descNodesL cs)
end

/-- The node reached from `n` by following a child-index path. -/
def nodeAt : Node → List Nat → Option Node
  | n, [] => some n
  | n, i :: p =>
    match (Node.children n).get? i with
    | some c => nodeAt c p
    | none => none

/-- Evaluate a predicate at the node addressed by a path (false when the
path is invalid). -/
def checkAt (root : Node) (p : List Nat) (pred : Node → Bool) : Bool :=
  match nodeAt root p with
  | some n => pred n
  | none => false

/-- Paths of all strict descendants of the node at `p`, as absolute paths
from the root, in document order. -/
def descPosUnder (root : Node) (p : List Nat) : List (List Nat) :=
  match nodeAt root p with
  | some n => (subPos n).map (p ++ ·)
  | none => []

/-! ### html_parsers.py -/

/-- `TARGET_H2_KEYWORD = "一周口碑榜"`. -/
def TARGET_H2_KEYWORD : List Char := "一周口碑榜".data

/-- The per-heading test of the locator's first step: an `h2` whose
`_norm_text(h2.get_text(" "))` contains the keyword. -/
def isTargetH2 (n : Node) : Bool :=
  tagIs "h2" n && containsSub TARGET_H2_KEYWORD (normText (getTextSep n))

/-- A `ul` carrying the `content` marker class. -/
def isContentUl (n : Node) : Bool :=
  tagIs "ul" n && hasClass "content" n

/-- The sibling walk of `find_weekly_section` step 3: up to 5 `next_sibling`
steps from the heading (child index `k` of the parent), stopping at the end
of the sibling list or at a falsy (empty-string) sibling, returning the
first sibling that is a `ul` with class `content`. -/
def sibSearch (root : Node) (parentPos : List Nat) (k : Nat) : Nat → Nat → Option (List Nat)
  | 0, _ => none
  | fuel + 1, off =>
    match nodeAt root (parentPos ++ [k + off]) with
    | none => none
    | some s =>
      if !nodeTruthy s then none
      else if isContentUl s then some (parentPos ++ [k + off])
      else sibSearch root parentPos k fuel (off + 1)

/-- `find_weekly_section(soup)`: locate the weekly ranking `ul`, returned as
a path into the document.  Steps, first success wins:
1. collect all `h2` whose normalized text contains the keyword; none → `None`;
2. take the first such `h2`, and inside its parent's subtree (document
   order) return the first `ul` of class `content`;
3. otherwise walk up to 5 next siblings of the `h2` looking for such a `ul`;
4. otherwise the first `ul` with `id="listCont2"` anywhere in the document;
5. otherwise the first `ul` of class `content` anywhere in the document.
In BeautifulSoup a found `h2` is a strict descendant of the soup object, so
`h2.find_parent()` is never `None`; the parent is the path with the last
index dropped. -/
def find_weekly_section (root : Node) : Option (List Nat) :=
  match (subPos root).filter (fun p => checkAt root p isTargetH2) with
  | [] => none
  | h2p :: _ =>
    match (descPosUnder root h2p.dropLast).find? (fun p => checkAt root p isContentUl) with
    | some q => some q
    | none =>
      match sibSearch root h2p.dropLast (h2p.getLastD 0) 5 1 with
      | some q => some q
      | none =>
        match (subPos root).find? (fun p => checkAt root p (fun n => tagIs "ul" n && idIs "listCont2" n)) with
        | some q => some q
        | none => (subPos root).find? (fun p => checkAt root p isContentUl)

/-- Loop body of `parse_week_label`: scan the document's `h2` nodes (given
by path, in document order); at the first one whose normalized text
contains the keyword, return the normalized text of its first descendant
`span` if any, else the heading text with the keyword removed, stripped of
surrounding `·`, space and `.` — or `None` if that remainder is empty.
The loop returns inside the first matching heading either way. -/
def pwlLoop (root : Node) : List (List Nat) → Option (List Char)
  | [] => none
  | p :: rest =>
    match nodeAt root p with
    | none => pwlLoop root rest
    | some h2 =>
      if containsSub TARGET_H2_KEYWORD (normText (getTextSep h2)) then
        match (descNodes h2).find? (tagIs "span") with
        | some sp => some (normText (getTextSep sp))
        | none =>
          let cleaned :=
            pyStripSet ("· .".data) (normText (pyReplace (normText (getTextSep h2)) TARGET_H2_KEYWORD))
          if cleaned.isEmpty then none else some cleaned
      else pwlLoop root rest

/-- `parse_week_label(soup)`. -/
def parse_week_label (root : Node) : Option (List Char) :=
  pwlLoop root ((subPos root).filter (fun p => checkAt root p (tagIs "h2")))

/-- A ranking entry as built by `parse_top_from_ul`: the Python dict holds
`rank` as an int (the repair pass probes it for `None`, hence the option),
`title` and `url` as strings. -/
structure Entry where
  rank : Option Nat
  title : List Char
  url : String

/-- The rank of a list item: the first descendant `div` of class `no`, when
its normalized text is purely numeric. -/
def rankOf (li : Node) : Option Nat :=
  match (descNodes li).find? (fun n => tagIs "div" n && hasClass "no" n) with
  | none => none
  | some d =>
    let t := normText (getTextSep d)
    if pyIsDigit t then some (digitsToNat t) else none

/-- Title and href of a list item: the first `a` inside the first descendant
`div` of class `name`; the title is the link's normalized text, the href its
(possibly absent) attribute. -/
def linkOf (li : Node) : Option (List Char × Option String) :=
  match (descNodes li).find? (fun n => tagIs "div" n && hasClass "name" n) with
  | none => none
  | some d =>
    match (descNodes d).find? (tagIs "a") with
    | none => none
    | some a => some (normText (getTextSep a), hrefOf a)

/-- Acceptance test of one `li` (`if no is not None and name and href`):
an entry is produced iff the rank parsed, the title is non-empty and the
href is present and non-empty; otherwise the item is skipped. -/
def extractEntry (li : Node) : Option Entry :=
  match rankOf li, linkOf li with
  | some r, some (nm, some h) =>
    if !nm.isEmpty && !h.data.isEmpty then some ⟨some r, nm, h⟩ else none
  | _, _ => none

/-- The accumulation loop of `parse_top_from_ul`: append the entry of each
accepted item; after each item, stop as soon as `len(results) >= limit`. -/
def extractLoop (limit : Nat) : List Node → List Entry → List Entry
  | [], acc => acc
  | li :: rest, acc =>
    match extractEntry li with
    | some e =>
      if limit ≤ (acc ++ [e]).length then acc ++ [e] else extractLoop limit rest (acc ++ [e])
    | none =>
      if limit ≤ acc.length then acc else extractLoop limit rest acc

/-- Direct child `li` elements of the list container
(`ul.find_all("li", recursive=False)`). -/
def liChildren (ul : Node) : List Node :=
  (Node.children ul).filter (tagIs "li")

/-- The defensive repair pass: renumber all entries `1..N` in order
(`enumerate(results, start=1)`). -/
def renumber (l : List Entry) : List Entry :=
  l.enum.map (fun p => { p.2 with rank := some (p.1 + 1) })

/-- `parse_top_from_ul(ul, limit)`: extract entries from the direct child
list items, then renumber `1..N` if the batch is non-empty and some entry
lacks a rank. -/
def parse_top_from_ul (ul : Node) (limit : Nat) : List Entry :=
  let results := extractLoop limit (liChildren ul) []
  if !results.isEmpty && results.any (fun e => e.rank.isNone) then renumber results
  else results

/-! ### douban_wom.py — Fetcher (`http_get`) -/

/-- An HTTP response (only the fields `http_get` consults). -/
structure Response where
  status : Nat
  body : String
deriving DecidableEq

/-- Outcome of one `requests.get` call: a response, or a raised
transport-level exception (identified by its message). -/
inductive Attempt where
  | resp (r : Response) : Attempt
  | exn (e : String) : Attempt
deriving DecidableEq

/-- Result of `http_get`: the 200 response, a re-raised transport
exception, or the final `RuntimeError("Failed to GET ...")`. -/
inductive FetchResult where
  | ok (r : Response) : FetchResult
  | raised (e : String) : FetchResult
  | exhausted : FetchResult
deriving DecidableEq

/-- Whether an attempt produced a 200 response. -/
def is200 : Attempt → Bool
  | .resp r => r.status == 200
  | .exn _ => false

/-- Whether an attempt raised a transport exception. -/
def isExn : Attempt → Bool
  | .resp _ => false
  | .exn _ => true

/-- The retry loop of `http_get`, with the outcome of attempt `i` supplied
by the oracle `att`: starting at attempt `i` with `n` attempts remaining
and `last_err` as accumulated; a 200 response returns immediately, a
non-200 response is dropped, an exception replaces `last_err`; exhaustion
re-raises `last_err` if any, else the generic failure. -/
def httpLoop (att : Nat → Attempt) : Nat → Nat → Option String → FetchResult
  | _, 0, lastErr =>
    match lastErr with
    | some e => .raised e
    | none => .exhausted
  | i, n + 1, lastErr =>
    match att i with
    | .resp r => if r.status == 200 then .ok r else httpLoop att (i + 1) n lastErr
    | .exn e => httpLoop att (i + 1) n (some e)

/-- `http_get(url, timeout, max_retries)` with the network abstracted by
the per-attempt oracle: `max_retries + 1` total attempts. -/
def http_get (att : Nat → Attempt) (maxRetries : Nat) : FetchResult :=
  httpLoop att 0 (maxRetries + 1) none

/-! ### douban_wom.py — Snapshot Indexer (`cdx_snapshots`) -/

/-- A CDX record: the key/value pairs in construction order.  Python builds
a `dict` from them, so a duplicate key takes its last value — `dget` looks
up accordingly. -/
abbrev Row := List (String × String)

/-- Python `row.get(k)`: value of the last pair with key `k`. -/
def dget (row : Row) (k : String) : Option String :=
  (row.reverse.find? (fun kv => kv.1 == k)).map (fun kv => kv.2)

/-- Python `row.get(k, "")`. -/
def dgetD (row : Row) (k : String) : String :=
  (dget row k).getD ""

/-- The sort key of `cdx_snapshots`: `r.get("timestamp", "")` as a char
list. -/
def tsVal (row : Row) : List Char :=
  (dgetD row "timestamp").data

/-- The descending-by-timestamp order produced by
`rows.sort(key=..., reverse=True)`. -/
def rowGe (a b : Row) : Prop :=
  lexLe (tsVal b) (tsVal a) = true

instance : DecidableRel rowGe := fun a b => by
  unfold rowGe; infer_instance

/-- The JSON path of `cdx_snapshots` after `json.loads` succeeded on the
array-of-arrays body: `if not data or len(data) < 2: return []`; first row
is the header list, the rest map positionally (`dict(zip(headers, row))`);
sort descending by timestamp string (a stable sort, modelled by the stable
`insertionSort`) and truncate to `limit`. -/
def cdx_rows_json (data : List (List String)) (limit : Nat) : List Row :=
  if data.length < 2 then []
  else
    match data with
    | [] => []
    | headers :: rest =>
      ((rest.map (fun r => headers.zip r)).insertionSort rowGe).take limit

/-- The text-fallback path of `cdx_snapshots` after `json.loads` failed,
taking the body's lines: drop blank lines; the first remaining line,
stripped and split on single spaces, gives the headers; every further line
splits on single spaces and maps positionally to the headers (missing
fields become `""`); return `rows[:limit]`. -/
def cdx_rows_text (lines : List String) (limit : Nat) : List Row :=
  match lines.filter (fun ln => !(pyStrip ln.data).isEmpty) with
  | [] => []
  | first :: rest =>
    let headers := splitSpace (pyStrip first.data)
    (rest.map (fun ln =>
      let parts := splitSpace ln.data
      headers.enum.map (fun p => (p.2, parts.getD p.1 "")))).take limit

/-- The response body of the CDX query, at the boundary where
`json.loads(data_text)` either succeeds (the structured array-of-arrays
format) or raises (any other body, handled line-wise). -/
inductive CdxBody where
  | json (data : List (List String)) : CdxBody
  | rawText (lines : List String) : CdxBody

/-- `cdx_snapshots(url, limit, years_back)` from the response body on: the
query parameters and the HTTP exchange are outside the model. -/
def cdx_snapshots : CdxBody → Nat → List Row
  | .json data, limit => cdx_rows_json data limit
  | .rawText lines, limit => cdx_rows_text lines limit

/-! ### douban_wom.py — Orchestrator (`run`) -/

/-- One element of `recent_archives`: the parsed archive dict, or the
failure marker `{"error": f"failed_archive_{ts}: {e}", "timestamp": ts}`
built when fetching/parsing that snapshot raised. -/
inductive ArchEntry (α : Type) where
  | ok (a : α) : ArchEntry α
  | failed (err : String) (ts : String) : ArchEntry α
deriving DecidableEq

/-- The report `run` builds (`generated_at`, a wall-clock read, is outside
the model). -/
structure Report (κ α : Type) where
  current : Except String κ
  recent_archives : List (ArchEntry α)
  notes : List String

/-- The per-snapshot loop of `run`: for each record in order, skip it when
`snap.get("timestamp")` is `None` or empty; otherwise append the fetched
archive, or the failure marker if the fetch/parse raised.  The outcome of
`fetch_archive(ts)` is supplied by the oracle `fetchA`. -/
def runArchives {α : Type} (fetchA : String → Except String α) : List Row → List (ArchEntry α)
  | [] => []
  | snap :: rest =>
    let tail := runArchives fetchA rest
    match dget snap "timestamp" with
    | none => tail
    | some ts =>
      if ts = "" then tail
      else
        (match fetchA ts with
         | .ok a => .ok a
         | .error e => .failed e ts) :: tail

/-- `run(recent)`: record the current fetch (or its failure marker); when
`recent > 0`, list snapshots — on indexer failure append a note and use the
empty list — and process each snapshot in order.  The three effectful
collaborators (`fetch_current`, `cdx_snapshots`, `fetch_archive`) enter as
oracles. -/
def run {κ α : Type} (fetchCurrent : Except String κ)
    (listSnaps : Except String (List Row))
    (fetchA : String → Except String α) (recent : Int) : Report κ α :=
  if 0 < recent then
    match listSnaps with
    | .ok snaps =>
      { current := fetchCurrent
        recent_archives := runArchives fetchA snaps
        notes := [] }
    | .error e =>
      { current := fetchCurrent
        recent_archives := []
        notes := ["archive_list_error: " ++ e] }
  else
    { current := fetchCurrent
      recent_archives := []
      notes := [] }

/-! ### Concrete documents and oracles used by witnesses and counterexamples -/

/-- Build an element with the given tag, classes and children. -/
def el (tag : String) (cls : List String) (cs : List Node) : Node :=
  .elem tag ⟨cls, none, none⟩ (cs.foldr .cons .nil)

/-- Build an element carrying an `id` attribute. -/
def elId (tag : String) (cls : List String) (idv : String) (cs : List Node) : Node :=
  .elem tag ⟨cls, some idv, none⟩ (cs.foldr .cons .nil)

/-- An anchor with an `href` and link text. -/
def aHref (h : String) (txt : String) : Node :=
  .elem "a" ⟨[], none, some h⟩ (.cons (.text txt) .nil)

/-- A well-formed ranking list item: `div.no` with the rank text and
`div.name` holding the titled link. -/
def liEntry (no : String) (title : String) (href : String) : Node :=
  el "li" [] [el "div" ["no"] [.text no], el "div" ["name"] [aHref href title]]

/-- A heading matching the target keyword. -/
def h2kw : Node := el "h2" [] [.text "一周口碑榜"]

/-- A document whose heading's parent holds a `ul.content` both deeply
nested before the heading (path `[0,0,0]`) and as a direct child after it
(path `[0,2]`). -/
def C5doc : Node :=
  el "html" []
    [el "div" [] [el "div" [] [el "ul" ["content"] []], h2kw, el "ul" ["content"] []]]

/-- A document whose heading's parent holds exactly one `ul.content`, as a
direct child of the parent (path `[0,1]`). -/
def C5doc2 : Node :=
  el "html" [] [el "div" [] [h2kw, el "ul" ["content"] []]]

/-- A document whose first `ul.content` in the parent's subtree is deeply
nested (path `[0,0,0]`) and located before the heading (path `[1]`). -/
def C10doc : Node :=
  el "html" []
    [el "div" [] [el "div" [] [el "ul" ["content"] []]], h2kw, el "ul" ["content"] []]

/-- A document with no heading matching the keyword, but with both global
fallback targets present (`ul#listCont2` and `ul.content`). -/
def C8doc : Node :=
  el "html" []
    [el "h2" [] [.text "别的标题"], elId "ul" [] "listCont2" [],
     el "ul" ["content"] [], el "span" [] [.text "x"]]

/-- A list container with two well-formed items. -/
def C2ul : Node :=
  el "ul" ["content"] [liEntry "1" "电影甲" "http://a", liEntry "2" "电影乙" "http://b"]

/-- A list container whose page-carried ranks are 3, 7, 9. -/
def C3ul : Node :=
  el "ul" ["content"] [liEntry "3" "甲" "u1", liEntry "7" "乙" "u2", liEntry "9" "丙" "u3"]

/-- A list container mixing well-formed items with items whose rank is not
numeric or whose name block is missing. -/
def C6ul : Node :=
  el "ul" ["content"]
    [liEntry "1" "甲" "u1",
     el "li" [] [el "div" ["no"] [.text "x2"], el "div" ["name"] [aHref "u" "t"]],
     el "li" [] [el "div" ["no"] [.text "2"]],
     liEntry "3" "丙" "u3",
     liEntry "4" "丁" "u4"]

/-- A CDX text-fallback body whose rows come back oldest-first. -/
def C1lines : List String :=
  ["urlkey timestamp", "k 20200101000000", "k 20210101000000"]

/-- Attempt oracle: non-200 on attempt 0, a 200 response on attempt 1. -/
def attOk : Nat → Attempt :=
  fun i => if i = 0 then .resp ⟨500, "err"⟩ else .resp ⟨200, "body"⟩

/-- Attempt oracle: every attempt is a non-200 response. -/
def attBad : Nat → Attempt :=
  fun i => if i = 0 then .resp ⟨500, "a"⟩ else .resp ⟨404, "b"⟩

/-- Attempt oracle: non-200, then a transport exception on the last
attempt. -/
def attMix : Nat → Attempt :=
  fun i => if i = 0 then .resp ⟨500, "a"⟩ else .exn "conn reset"

/-- Attempt oracle: a transport exception first, then a non-200 response on
the last attempt. -/
def attExnFirst : Nat → Attempt :=
  fun i => if i = 0 then .exn "net down" else .resp ⟨500, "b"⟩

/-- Archive-fetch oracle failing exactly on timestamp `t2`. -/
def fetchA7 : String → Except String Nat :=
  fun t => if t = "t2" then .error "boom" else if t = "t1" then .ok 1 else .ok 3

/-! ### Helper lemmas -/

theorem lexLe_total : ∀ a b : List Char, lexLe a b = true ∨ lexLe b a = true
  | [], _ => Or.inl rfl
  | _ :: _, [] => Or.inr rfl
  | a :: as, b :: bs => by
    by_cases h1 : a.toNat < b.toNat
    · exact Or.inl (by simp [lexLe, h1])
    · by_cases h2 : b.toNat < a.toNat
      · exact Or.inr (by simp [lexLe, h2])
      · rcases lexLe_total as bs with h | h
        · exact Or.inl (by simp [lexLe, h1, h2, h])
        · exact Or.inr (by simp [lexLe, h1, h2, h])

theorem lexLe_trans : ∀ a b c : List Char,
    lexLe a b = true → lexLe b c = true → lexLe a c = true
  | [], _, _, _, _ => rfl
  | _ :: _, [], _, h1, _ => by simp [lexLe] at h1
  | _ :: _, _ :: _, [], _, h2 => by simp [lexLe] at h2
  | a :: as, b :: bs, c :: cs, h1, h2 => by
    simp only [lexLe] at h1 h2 ⊢
    by_cases hab : a.toNat < b.toNat
    · by_cases hbc : b.toNat < c.toNat
      · simp [show a.toNat < c.toNat by omega]
      · by_cases hcb : c.toNat < b.toNat
        · simp [hbc, hcb] at h2
        · simp [show a.toNat < c.toNat by omega]
    · by_cases hba : b.toNat < a.toNat
      · simp [hab, hba] at h1
      · simp only [hab, hba, if_false] at h1
        by_cases hbc : b.toNat < c.toNat
        · simp [show a.toNat < c.toNat by omega]
        · by_cases hcb : c.toNat < b.toNat
          · simp [hbc, hcb] at h2
          · simp only [hbc, hcb, if_false] at h2
            have hac1 : ¬ a.toNat < c.toNat := by omega
            have hac2 : ¬ c.toNat < a.toNat := by omega
            simp only [hac1, hac2, if_false]
            exact lexLe_trans as bs cs h1 h2

theorem find?_of_middle {α : Type} (p : α → Bool) :
    ∀ (l1 : List α) (q : α) (l2 : List α), (∀ x ∈ l1, p x = false) → p q = true →
      (l1 ++ q :: l2).find? p = some q := by
  intro l1
  induction l1 with
  | nil =>
    intro q l2 _ hq
    simpa using List.find?_cons_of_pos _ hq
  | cons x l1 ih =>
    intro q l2 h1 hq
    have hx : p x = false := h1 x (List.mem_cons_self x l1)
    simp only [List.cons_append]
    rw [List.find?_cons_of_neg _ (by simp [hx])]
    exact ih q l2 (fun y hy => h1 y (List.mem_cons_of_mem _ hy)) hq

theorem nodeAt_append : ∀ (p q : List Nat) (n : Node),
    nodeAt n (p ++ q) = (nodeAt n p).bind (fun m => nodeAt m q)
  | [], q, n => by simp [nodeAt]
  | i :: p, q, n => by
    simp only [List.cons_append, nodeAt]
    cases (Node.children n).get? i with
    | none => rfl
    | some c => exact nodeAt_append p q c

theorem mem_subPosAux_of_get : ∀ (cs : NodeList) (j i : Nat) (c : Node),
    cs.toList.get? i = some c → [j + i] ∈ subPosAux j cs
  | .nil, j, i, c, h => by simp [NodeList.toList] at h
  | .cons x cs, j, 0, c, h => by simp [subPosAux]
  | .cons x cs, j, i + 1, c, h => by
    simp only [NodeList.toList, List.get?_cons_succ] at h
    have hmem := mem_subPosAux_of_get cs (j + 1) i c h
    simp only [subPosAux, List.mem_cons, List.mem_append]
    right; right
    rw [show j + (i + 1) = (j + 1) + i by omega]
    exact hmem

theorem child_single_mem_subPos (n : Node) (i : Nat) (c : Node)
    (h : (Node.children n).get? i = some c) : [i] ∈ subPos n := by
  cases n with
  | text s => simp [Node.children] at h
  | elem t a cs =>
    have hmem := mem_subPosAux_of_get cs 0 i c (by simpa [Node.children] using h)
    simpa [subPos] using hmem

theorem extractEntry_rank_isSome {li : Node} {e : Entry}
    (h : extractEntry li = some e) : e.rank.isSome = true := by
  unfold extractEntry at h
  split at h
  · split at h
    · cases h; rfl
    · cases h
  · cases h

theorem extractLoop_rank_isSome (limit : Nat) :
    ∀ (lis : List Node) (acc : List Entry),
      (∀ e ∈ acc, e.rank.isSome = true) →
      ∀ e ∈ extractLoop limit lis acc, e.rank.isSome = true
  | [], acc, hacc => by simpa [extractLoop] using hacc
  | li :: rest, acc, hacc => by
    have hstep : ∀ e2, extractEntry li = some e2 →
        ∀ e ∈ acc ++ [e2], e.rank.isSome = true := by
      intro e2 he2 e he
      rcases List.mem_append.mp he with h | h
      · exact hacc e h
      · rcases List.mem_singleton.mp h with rfl
        exact extractEntry_rank_isSome he2
    simp only [extractLoop]
    split
    case h_1 e2 he2 =>
      split
      · exact hstep e2 he2
      · exact extractLoop_rank_isSome limit rest (acc ++ [e2]) (hstep e2 he2)
    case h_2 =>
      split
      · exact hacc
      · exact extractLoop_rank_isSome limit rest acc hacc

theorem extractLoop_length_le (limit : Nat) :
    ∀ (lis : List Node) (acc : List Entry),
      (extractLoop limit lis acc).length ≤ max limit (acc.length + 1)
  | [], acc => by
    simp only [extractLoop]
    omega
  | li :: rest, acc => by
    simp only [extractLoop]
    split
    case h_1 e2 he2 =>
      split
      case isTrue =>
        simp only [List.length_append, List.length_singleton]
        omega
      case isFalse hf =>
        have := extractLoop_length_le limit rest (acc ++ [e2])
        simp only [List.length_append, List.length_singleton] at this hf
        omega
    case h_2 =>
      split
      · omega
      · have := extractLoop_length_le limit rest acc
        omega

theorem extractLoop_eq_take (limit : Nat) :
    ∀ (lis : List Node) (acc : List Entry), acc.length < limit →
      extractLoop limit lis acc = acc ++ (lis.filterMap extractEntry).take (limit - acc.length)
  | [], acc, _ => by simp [extractLoop]
  | li :: rest, acc, h => by
    cases he : extractEntry li with
    | none =>
      have hl : ¬ limit ≤ acc.length := by omega
      simp only [extractLoop, he, hl, if_false]
      rw [extractLoop_eq_take limit rest acc h]
      simp [List.filterMap_cons, he]
    | some e =>
      by_cases hl : limit ≤ acc.length + 1
      · have h2 : limit - acc.length = 1 := by omega
        simp only [extractLoop, he]
        rw [if_pos (by simp; omega)]
        simp [List.filterMap_cons, he, h2]
      · simp only [extractLoop, he]
        rw [if_neg (by simp; omega)]
        rw [extractLoop_eq_take limit rest (acc ++ [e]) (by simp; omega)]
        have h3 : limit - acc.length = (limit - (acc.length + 1)) + 1 := by omega
        simp only [List.filterMap_cons, he, h3, List.take_succ_cons, List.append_assoc,
          List.singleton_append, List.length_append, List.length_singleton]

theorem parse_top_eq_loop (ul : Node) (limit : Nat) :
    parse_top_from_ul ul limit = extractLoop limit (liChildren ul) [] := by
  unfold parse_top_from_ul
  have hall : ∀ e ∈ extractLoop limit (liChildren ul) [], e.rank.isSome = true :=
    extractLoop_rank_isSome limit _ [] (by simp)
  have hany : (extractLoop limit (liChildren ul) []).any (fun e => e.rank.isNone) = false := by
    rw [List.any_eq_false]
    intro e he
    have := hall e he
    simp [Option.isNone]
    cases hr : e.rank with
    | none => rw [hr] at this; simp at this
    | some v => simp
  simp [hany]

theorem httpLoop_congr (att att2 : Nat → Attempt) :
    ∀ (n i : Nat) (lastErr : Option String),
      (∀ k, i ≤ k → k < i + n → att k = att2 k) →
      httpLoop att i n lastErr = httpLoop att2 i n lastErr
  | 0, i, lastErr, _ => rfl
  | n + 1, i, lastErr, h => by
    simp only [httpLoop]
    rw [← h i (le_refl i) (by omega)]
    split
    case h_1 r heq =>
      split
      · rfl
      · exact httpLoop_congr att att2 n (i + 1) lastErr (fun k h1 h2 => h k (by omega) (by omega))
    case h_2 e heq =>
      exact httpLoop_congr att att2 n (i + 1) (some e) (fun k h1 h2 => h k (by omega) (by omega))

theorem httpLoop_first200 (att : Nat → Attempt) :
    ∀ (n i j : Nat) (lastErr : Option String) (r : Response),
      i ≤ j → j < i + n → (∀ k, i ≤ k → k < j → is200 (att k) = false) →
      att j = .resp r → r.status = 200 →
      httpLoop att i n lastErr = .ok r
  | 0, i, j, _, r, hij, hjn, _, _, _ => absurd hjn (by omega)
  | n + 1, i, j, lastErr, r, hij, hjn, hpre, hj, h200 => by
    simp only [httpLoop]
    by_cases hji : i = j
    · subst hji
      rw [hj]
      simp [h200]
    · have hlt : i < j := by omega
      have hi : is200 (att i) = false := hpre i (le_refl i) hlt
      cases ha : att i with
      | resp ri =>
        rw [ha] at hi
        simp only [is200] at hi
        simp only [hi, Bool.false_eq_true, if_false]
        exact httpLoop_first200 att n (i + 1) j lastErr r (by omega) (by omega)
          (fun k h1 h2 => hpre k (by omega) h2) hj h200
      | exn e =>
        exact httpLoop_first200 att n (i + 1) j (some e) r (by omega) (by omega)
          (fun k h1 h2 => hpre k (by omega) h2) hj h200

theorem httpLoop_allBad (att : Nat → Attempt) :
    ∀ (n i : Nat) (lastErr : Option String),
      (∀ k, i ≤ k → k < i + n → is200 (att k) = false ∧ isExn (att k) = false) →
      httpLoop att i n lastErr = (match lastErr with | some e => .raised e | none => .exhausted)
  | 0, _, _, _ => rfl
  | n + 1, i, lastErr, h => by
    obtain ⟨h200, hexn⟩ := h i (le_refl i) (by omega)
    cases ha : att i with
    | exn e =>
      rw [ha] at hexn
      simp [isExn] at hexn
    | resp r =>
      rw [ha] at h200
      simp only [is200] at h200
      simp only [httpLoop, ha, h200, Bool.false_eq_true, if_false]
      exact httpLoop_allBad att n (i + 1) lastErr (fun k h1 h2 => h k (by omega) (by omega))

theorem httpLoop_lastExn (att : Nat → Attempt) :
    ∀ (n i j : Nat) (e : String) (lastErr : Option String),
      i ≤ j → j < i + n →
      (∀ k, i ≤ k → k < i + n → is200 (att k) = false) →
      att j = .exn e →
      (∀ k, j < k → k < i + n → isExn (att k) = false) →
      httpLoop att i n lastErr = .raised e
  | 0, i, j, _, _, hij, hjn, _, _, _ => absurd hjn (by omega)
  | n + 1, i, j, e, lastErr, hij, hjn, hall, hj, hpost => by
    by_cases hji : i = j
    · subst hji
      simp only [httpLoop, hj]
      have hrest : ∀ k, i + 1 ≤ k → k < (i + 1) + n →
          is200 (att k) = false ∧ isExn (att k) = false := by
        intro k h1 h2
        exact ⟨hall k (by omega) (by omega), hpost k (by omega) (by omega)⟩
      exact httpLoop_allBad att n (i + 1) (some e) hrest
    · have hlt : i < j := by omega
      have hi : is200 (att i) = false := hall i (le_refl i) (by omega)
      cases ha : att i with
      | resp ri =>
        rw [ha] at hi
        simp only [is200] at hi
        simp only [httpLoop, ha, hi, Bool.false_eq_true, if_false]
        exact httpLoop_lastExn att n (i + 1) j e lastErr (by omega) (by omega)
          (fun k h1 h2 => hall k (by omega) (by omega)) hj
          (fun k h1 h2 => hpost k h1 (by omega))
      | exn e2 =>
        simp only [httpLoop, ha]
        exact httpLoop_lastExn att n (i + 1) j e (some e2) (by omega) (by omega)
          (fun k h1 h2 => hall k (by omega) (by omega)) hj
          (fun k h1 h2 => hpost k h1 (by omega))

theorem pwlLoop_none (root : Node) :
    ∀ ps : List (List Nat),
      (∀ p ∈ ps, checkAt root p isTargetH2 = false ∧ checkAt root p (tagIs "h2") = true) →
      pwlLoop root ps = none
  | [], _ => rfl
  | p :: ps, h => by
    obtain ⟨h1, h2⟩ := h p (List.mem_cons_self p ps)
    have htail := pwlLoop_none root ps (fun x hx => h x (List.mem_cons_of_mem _ hx))
    unfold pwlLoop
    cases hn : nodeAt root p with
    | none => exact htail
    | some n =>
      simp only [checkAt, hn, isTargetH2] at h1 h2
      rw [h2, Bool.true_and] at h1
      simp only [h1, Bool.false_eq_true, if_false]
      exact htail

/-! ### Claims -/

/-- C1, counterexample: on the whitespace-delimited text fallback path the
Snapshot Indexer does not sort — a body whose rows come back oldest-first
is returned oldest-first, so the result is not sorted descending by
timestamp string. -/
theorem cdx_text_path_unsorted_cex :
    ¬ List.Sorted rowGe (cdx_snapshots (.rawText C1lines) 2) := by decide

/-- C1, amended: the JSON array-of-arrays path sorts descending by
timestamp string and truncates to `limit`; the text fallback path only
truncates to `limit`, keeping the rows in input order. -/
theorem cdx_json_sorted_both_truncated :
    (∀ (data : List (List String)) (limit : Nat),
        List.Sorted rowGe (cdx_snapshots (.json data) limit)) ∧
    (∀ (body : CdxBody) (limit : Nat), (cdx_snapshots body limit).length ≤ limit) := by
  constructor
  · intro data limit
    haveI : IsTotal Row rowGe := ⟨fun a b => lexLe_total (tsVal b) (tsVal a)⟩
    haveI : IsTrans Row rowGe := ⟨fun a b c h1 h2 => lexLe_trans _ _ _ h2 h1⟩
    simp only [cdx_snapshots, cdx_rows_json]
    split
    · exact List.sorted_nil
    · split
      · exact List.sorted_nil
      · exact (List.sorted_insertionSort rowGe _).take
  · intro body limit
    cases body with
    | json data =>
      simp only [cdx_snapshots, cdx_rows_json]
      split
      · simp
      · split
        · simp
        · apply List.length_take_le
    | rawText lines =>
      simp only [cdx_snapshots, cdx_rows_text]
      split
      · simp
      · apply List.length_take_le

/-- C2, counterexample: with `limit = 0` the Entry Extractor still returns
the first accepted entry, because the stop check `len(results) >= limit`
runs only after an item has been processed — so the result length exceeds
the limit. -/
theorem entry_limit_zero_cex :
    ¬ ((parse_top_from_ul C2ul 0).length ≤ 0) := by decide

/-- C2, amended: the length of the extracted batch is at most
`max limit 1`: at most `limit` entries whenever `limit ≥ 1`, but up to one
entry when `limit = 0`. -/
theorem entry_length_le_max_limit_one :
    ∀ (ul : Node) (limit : Nat), (parse_top_from_ul ul limit).length ≤ max limit 1 := by
  intro ul limit
  rw [parse_top_eq_loop]
  have h := extractLoop_length_le limit (liChildren ul) []
  simpa using h

/-- C3, counterexample: a page carrying ranks 3, 7, 9 is returned with
ranks 3, 7, 9 — not renumbered to the contiguous sequence 1..3 — because
the repair pass only fires when an accepted entry lacks a rank, which the
acceptance test rules out. -/
theorem ranks_not_renumbered_cex :
    (parse_top_from_ul C3ul 5).map (fun e => e.rank) = [some 3, some 7, some 9] ∧
    ¬ (parse_top_from_ul C3ul 5).map (fun e => e.rank) = [some 1, some 2, some 3] := by
  decide

/-- C3, amended: the returned ranks are exactly the rank values parsed from
the page: every accepted entry carries a rank (so the defensive renumber
pass never fires and the extraction loop's output is returned unchanged). -/
theorem ranks_are_page_ranks :
    ∀ (ul : Node) (limit : Nat),
      parse_top_from_ul ul limit = extractLoop limit (liChildren ul) [] ∧
      (parse_top_from_ul ul limit).all (fun e => e.rank.isSome) = true := by
  intro ul limit
  refine ⟨parse_top_eq_loop ul limit, ?_⟩
  rw [parse_top_eq_loop, List.all_eq_true]
  intro e he
  exact extractLoop_rank_isSome limit (liChildren ul) [] (by simp) e he

/-- C6: for a positive limit, the Entry Extractor's output is exactly the
first `limit` results of `extractEntry` over the direct child `li`
elements in document order — items are inspected only among direct child
list items, an item contributes iff `extractEntry` accepts it (numeric
rank, non-empty link text, present non-empty href), and rejected items are
skipped without error. -/
theorem entries_are_filtered_children (ul : Node) (limit : Nat) (h : 1 ≤ limit) :
    parse_top_from_ul ul limit = ((liChildren ul).filterMap extractEntry).take limit := by
  rw [parse_top_eq_loop]
  have h2 := extractLoop_eq_take limit (liChildren ul) [] (by simpa using h)
  simpa using h2

/-- C6, witness: on a list mixing well-formed and malformed items with
limit 2, the theorem applies and both sides evaluate. -/
theorem entries_are_filtered_children_witness :
    1 ≤ 2 ∧
      parse_top_from_ul C6ul 2 = ((liChildren C6ul).filterMap extractEntry).take 2 :=
  ⟨by decide, entries_are_filtered_children C6ul 2 (by decide)⟩

/-- C4: the Fetcher (a) reads at most attempts `0..max_retries` — any
oracle agreeing on those attempts yields the same result; (b) returns the
response of the first attempt with status 200; (c) re-raises the transport
exception when the last attempt raised one and no earlier attempt returned
200; (d) fails with the generic exhausted-attempts error when every attempt
was a non-200 response and no transport exception was ever raised. -/
theorem http_get_retry_contract (att : Nat → Attempt) (maxRetries : Nat) :
    (∀ att2 : Nat → Attempt, (∀ k, k ≤ maxRetries → att k = att2 k) →
        http_get att maxRetries = http_get att2 maxRetries) ∧
    (∀ (j : Nat) (r : Response), j ≤ maxRetries →
        (∀ k, k < j → is200 (att k) = false) → att j = .resp r → r.status = 200 →
        http_get att maxRetries = .ok r) ∧
    (∀ e : String, (∀ k, k < maxRetries → is200 (att k) = false) →
        att maxRetries = .exn e → http_get att maxRetries = .raised e) ∧
    ((∀ k, k ≤ maxRetries → is200 (att k) = false ∧ isExn (att k) = false) →
        http_get att maxRetries = .exhausted) := by
  refine ⟨?_, ?_, ?_, ?_⟩
  · intro att2 h
    exact httpLoop_congr att att2 (maxRetries + 1) 0 none (fun k h1 h2 => h k (by omega))
  · intro j r hj hpre hr h200
    exact httpLoop_first200 att (maxRetries + 1) 0 j none r (by omega) (by omega)
      (fun k _ h2 => hpre k h2) hr h200
  · intro e hpre he
    have hall : ∀ k, 0 ≤ k → k < 0 + (maxRetries + 1) → is200 (att k) = false := by
      intro k _ h2
      by_cases hk : k = maxRetries
      · subst hk
        rw [he]
        rfl
      · exact hpre k (by omega)
    exact httpLoop_lastExn att (maxRetries + 1) 0 maxRetries e none (by omega) (by omega)
      hall he (fun k h1 h2 => absurd h1 (by omega))
  · intro h
    exact httpLoop_allBad att (maxRetries + 1) 0 none (fun k _ h2 => h k (by omega))

/-- C4, witness: with `max_retries = 1`, a 200 on the second attempt is
returned, a transport exception on the final attempt is re-raised, and two
non-200 responses end in the generic exhausted error. -/
theorem http_get_retry_contract_witness :
    http_get attOk 1 = .ok ⟨200, "body"⟩ ∧
    http_get attMix 1 = .raised "conn reset" ∧
    http_get attBad 1 = .exhausted :=
  ⟨(http_get_retry_contract attOk 1).2.1 1 ⟨200, "body"⟩ (by decide) (by decide)
      (by decide) (by decide),
   (http_get_retry_contract attMix 1).2.2.1 "conn reset" (by decide) (by decide),
   (http_get_retry_contract attBad 1).2.2.2 (by decide)⟩

/-- C9: when no attempt returns 200 and attempt `j` is the last one that
raised a transport exception, the Fetcher re-raises that exception — even
when the attempts after `j` (in particular the final one) failed with
non-200 responses rather than exceptions. -/
theorem http_get_reraises_last_exn (att : Nat → Attempt) (maxRetries j : Nat) (e : String)
    (hj : j ≤ maxRetries) (hje : att j = .exn e)
    (hno200 : ∀ k, k ≤ maxRetries → is200 (att k) = false)
    (hlast : ∀ k, k ≤ maxRetries → j < k → isExn (att k) = false) :
    http_get att maxRetries = .raised e :=
  httpLoop_lastExn att (maxRetries + 1) 0 j e none (by omega) (by omega)
    (fun k _ h2 => hno200 k (by omega)) hje (fun k h1 h2 => hlast k (by omega) h1)

/-- C9, witness: an exception on attempt 0 followed by a non-200 response
on the final attempt is re-raised. -/
theorem http_get_reraises_last_exn_witness :
    http_get attExnFirst 1 = .raised "net down" :=
  http_get_reraises_last_exn attExnFirst 1 0 "net down" (by decide) (by decide)
    (by decide) (by decide)

/-- C7: a run with `recent_count = 3` whose indexer returns three
timestamped snapshots, where fetching the second snapshot fails and the
other two succeed, yields `recent_archives` with exactly those three
results in indexer order — the second a failure marker, the others
populated. -/
theorem run_isolates_snapshot_failure {κ α : Type}
    (fetchCurrent : Except String κ) (fetchA : String → Except String α)
    (s1 s2 s3 : Row) (t1 t2 t3 : String) (a1 a3 : α) (e : String)
    (h1 : dget s1 "timestamp" = some t1) (h2 : dget s2 "timestamp" = some t2)
    (h3 : dget s3 "timestamp" = some t3)
    (n1 : t1 ≠ "") (n2 : t2 ≠ "") (n3 : t3 ≠ "")
    (f1 : fetchA t1 = .ok a1) (f2 : fetchA t2 = .error e) (f3 : fetchA t3 = .ok a3) :
    (run fetchCurrent (.ok [s1, s2, s3]) fetchA 3).recent_archives =
      [.ok a1, .failed e t2, .ok a3] := by
  simp only [run, show (0 : Int) < 3 by norm_num, if_true]
  simp only [runArchives, h1, h2, h3, n1, n2, n3, f1, f2, f3, if_false]

/-- C7, witness: a concrete run over three snapshot rows where the second
archive fetch fails. -/
theorem run_isolates_snapshot_failure_witness :
    (run (Except.ok (0 : Nat)) (.ok [[("timestamp", "t1")], [("timestamp", "t2")],
        [("timestamp", "t3")]]) fetchA7 3).recent_archives =
      [.ok 1, .failed "boom" "t2", .ok 3] :=
  run_isolates_snapshot_failure (Except.ok (0 : Nat)) fetchA7
    [("timestamp", "t1")] [("timestamp", "t2")] [("timestamp", "t3")]
    "t1" "t2" "t3" 1 3 "boom" rfl rfl rfl (by decide) (by decide) (by decide)
    rfl rfl rfl

/-- C8: in a document with no heading whose normalized text contains the
target keyword, the Section Locator returns absent at its first step
(without reaching any fallback) and the Label Extractor returns absent. -/
theorem no_heading_both_absent (root : Node)
    (h : ∀ p ∈ subPos root, checkAt root p isTargetH2 = false) :
    find_weekly_section root = none ∧ parse_week_label root = none := by
  constructor
  · unfold find_weekly_section
    have hnil : (subPos root).filter (fun p => checkAt root p isTargetH2) = [] := by
      rw [List.filter_eq_nil_iff]
      intro p hp
      simp [h p hp]
    rw [hnil]
  · unfold parse_week_label
    apply pwlLoop_none
    intro p hp
    exact ⟨h p (List.mem_filter.mp hp).1, (List.mem_filter.mp hp).2⟩

/-- C8, witness: a document with no matching heading but with both global
fallback targets (`ul#listCont2` and a `ul.content`) present — neither is
returned. -/
theorem no_heading_both_absent_witness :
    find_weekly_section C8doc = none ∧ parse_week_label C8doc = none :=
  no_heading_both_absent C8doc (by decide)

/-- C5, counterexample: in `C5doc` the (unique) matched heading is at path
`[0,1]`, a `ul.content` sits directly under its parent at path `[0,2]`,
yet the Section Locator returns the `ul.content` at path `[0,0,0]` — a
deeper container occurring earlier in the parent's subtree — not the
direct child. -/
theorem section_locator_direct_child_cex :
    (subPos C5doc).filter (fun p => checkAt C5doc p isTargetH2) = [[0, 1]] ∧
    checkAt C5doc ([0, 1].dropLast ++ [2]) isContentUl = true ∧
    find_weekly_section C5doc = some [0, 0, 0] ∧
    ([0, 0, 0] : List Nat) ≠ [0, 2] := by decide

/-- C5, amended: when a `ul.content` exists as a direct child of the
matched heading's parent, the parent-scoped search succeeds — the locator
returns the first `ul.content` of the parent's subtree in document order
(the direct child exactly when nothing matches earlier), and the sibling
walk and global fallbacks are not exercised. -/
theorem section_locator_parent_scoped (root : Node) (h2p : List Nat)
    (rest : List (List Nat)) (i : Nat)
    (hfilter : (subPos root).filter (fun p => checkAt root p isTargetH2) = h2p :: rest)
    (hchild : checkAt root (h2p.dropLast ++ [i]) isContentUl = true) :
    ((descPosUnder root h2p.dropLast).find? (fun p => checkAt root p isContentUl)).isSome
      = true ∧
    find_weekly_section root =
      (descPosUnder root h2p.dropLast).find? (fun p => checkAt root p isContentUl) := by
  have hsome : ∃ c, nodeAt root (h2p.dropLast ++ [i]) = some c ∧ isContentUl c = true := by
    unfold checkAt at hchild
    cases hn : nodeAt root (h2p.dropLast ++ [i]) with
    | none => rw [hn] at hchild; simp at hchild
    | some c =>
      rw [hn] at hchild
      exact ⟨c, rfl, hchild⟩
  obtain ⟨c, hc, hcu⟩ := hsome
  rw [nodeAt_append] at hc
  cases hp : nodeAt root h2p.dropLast with
  | none => rw [hp] at hc; simp at hc
  | some pn =>
    rw [hp] at hc
    simp only [Option.some_bind] at hc
    have hget : (Node.children pn).get? i = some c := by
      unfold nodeAt at hc
      cases hg : (Node.children pn).get? i with
      | none => rw [hg] at hc; simp at hc
      | some c2 =>
        rw [hg] at hc
        unfold nodeAt at hc
        cases hc
        rfl
    have hmem : (h2p.dropLast ++ [i]) ∈ descPosUnder root h2p.dropLast := by
      unfold descPosUnder
      rw [hp]
      exact List.mem_map.mpr ⟨[i], child_single_mem_subPos pn i c hget, rfl⟩
    have hcheck : checkAt root (h2p.dropLast ++ [i]) isContentUl = true := by
      unfold checkAt
      rw [nodeAt_append, hp]
      simp only [Option.some_bind]
      unfold nodeAt
      rw [hget]
      exact hcu
    have hfind :
        ((descPosUnder root h2p.dropLast).find? (fun p => checkAt root p isContentUl)).isSome
          = true := by
      rw [List.find?_isSome]
      exact ⟨_, hmem, hcheck⟩
    refine ⟨hfind, ?_⟩
    obtain ⟨q, hq⟩ := Option.isSome_iff_exists.mp hfind
    unfold find_weekly_section
    split
    case h_1 heq =>
      rw [hfilter] at heq
      simp at heq
    case h_2 hd tl heq =>
      rw [hfilter] at heq
      injection heq with e1 e2
      subst e1
      rw [hq]

/-- C5, witness: a document whose direct-child `ul.content` is the first
match in the parent's subtree; the parent-scoped search returns it. -/
theorem section_locator_parent_scoped_witness :
    ((descPosUnder C5doc2 ([0, 0] : List Nat).dropLast).find?
        (fun p => checkAt C5doc2 p isContentUl)).isSome = true ∧
    find_weekly_section C5doc2 =
      (descPosUnder C5doc2 ([0, 0] : List Nat).dropLast).find?
        (fun p => checkAt C5doc2 p isContentUl) :=
  section_locator_parent_scoped C5doc2 [0, 0] [] 1 (by decide) (by decide)

/-- C10: the parent-scoped step searches the matched heading's parent's
whole subtree in document order at any depth: whenever the parent's
descendant list splits as `l1 ++ q :: l2` with nothing in `l1` matching
and `q` a `ul.content`, the Section Locator returns exactly `q`. -/
theorem section_locator_first_in_subtree (root : Node) (h2p : List Nat)
    (rest l1 l2 : List (List Nat)) (q : List Nat)
    (hfilter : (subPos root).filter (fun p => checkAt root p isTargetH2) = h2p :: rest)
    (hsplit : descPosUnder root h2p.dropLast = l1 ++ q :: l2)
    (hl1 : ∀ p ∈ l1, checkAt root p isContentUl = false)
    (hq : checkAt root q isContentUl = true) :
    find_weekly_section root = some q := by
  unfold find_weekly_section
  split
  case h_1 heq =>
    rw [hfilter] at heq
    simp at heq
  case h_2 hd tl heq =>
    rw [hfilter] at heq
    injection heq with e1 e2
    subst e1
    rw [hsplit, find?_of_middle _ l1 q l2 hl1 hq]

/-- C10, witness: the first `ul.content` in the heading's parent's subtree
is deeply nested (path `[0,0,0]`) and occurs before the heading (path
`[1]`); the locator returns it. -/
theorem section_locator_first_in_subtree_witness :
    find_weekly_section C10doc = some [0, 0, 0] :=
  section_locator_first_in_subtree C10doc [1] [] [[0], [0, 0]] [[1], [1, 0], [2]]
    [0, 0, 0] (by decide) (by decide) (by decide) (by decide)

end DW
